import Mathlib

/-!
Verification of the pdf-text-extraction text-placement pipeline.

The development shallowly embeds the reader/iterator layer
(`src/TextExtraction/TextPlacementReader.cpp`, `src/unnamed/part_001`),
the JSON serialization (`src/unnamed/part_001`), the `MemoryByteReader`
buffer adapter, and — where only headers are available under `src/`
(`FontDecoder.h`, `TextPlacementsCollector.h`) — models the font decoder
and the graphics-state collector from the specification.

C++ `double` values are embedded as `ℚ`; byte strings as `List Nat`;
`std::map` lookups as association-list lookups.
-/

namespace PdfTextExtraction

/-- A 4-tuple of doubles, used both for `[xMin, yMin, xMax, yMax]` boxes
(`ParsedTextPlacement.globalBbox`) and for `[x, y, width, height]` boxes
(`TextPlacement.bbox`). Mirrors `double bbox[4]` in the source. -/
structure Box4 where
  b0 : ℚ
  b1 : ℚ
  b2 : ℚ
  b3 : ℚ
deriving DecidableEq, Inhabited

/-- An affine matrix `[a, b, c, d, e, f]` standing for
`[[a,b,0],[c,d,0],[e,f,1]]` (spec §3, Matrix). -/
structure Matrix6 where
  a : ℚ
  b : ℚ
  c : ℚ
  d : ℚ
  e : ℚ
  f : ℚ
deriving DecidableEq, Inhabited

/-- Identity matrix `[1,0,0,1,0,0]` (spec §3). -/
def idMatrix : Matrix6 := ⟨1, 0, 0, 1, 0, 0⟩

/-- Matrix composition: `matMul m1 m2` is the 3×3 product `M1 × M2`
restricted back to the 6-tuple form (spec §3: composition is
left-multiplication of 3×3 forms). -/
def matMul (m1 m2 : Matrix6) : Matrix6 :=
  ⟨m1.a * m2.a + m1.b * m2.c,
   m1.a * m2.b + m1.b * m2.d,
   m1.c * m2.a + m1.d * m2.c,
   m1.c * m2.b + m1.d * m2.d,
   m1.e * m2.a + m1.f * m2.c + m2.e,
   m1.e * m2.b + m1.f * m2.d + m2.f⟩

/-- Transform the point `(x, y)` by a matrix: row vector `[x y 1] × M`. -/
def transformPoint (m : Matrix6) (p : ℚ × ℚ) : ℚ × ℚ :=
  (m.a * p.1 + m.c * p.2 + m.e, m.b * p.1 + m.d * p.2 + m.f)

/-- Modelled from the spec: the collector's global-bbox computation
(`TextPlacementsCollector.cpp` is not under `src/`). Spec §4.2: transform
the four corners of `localBbox` (a `[xMin, yMin, xMax, yMax]` box) by the
text rendering matrix composed with the CTM and take the axis-aligned
min/max. -/
def globalBboxOfLocal (lb : Box4) (m : Matrix6) : Box4 :=
  let p1 := transformPoint m (lb.b0, lb.b1)
  let p2 := transformPoint m (lb.b0, lb.b3)
  let p3 := transformPoint m (lb.b2, lb.b1)
  let p4 := transformPoint m (lb.b2, lb.b3)
  ⟨min (min p1.1 p2.1) (min p3.1 p4.1),
   min (min p1.2 p2.2) (min p3.2 p4.2),
   max (max p1.1 p2.1) (max p3.1 p4.1),
   max (max p1.2 p2.2) (max p3.2 p4.2)⟩

/-- `ParsedTextPlacement` from `src/unnamed/part_000`: one record per
text-showing primitive, with the four-corner `globalBbox`
`[x1, y1, x2, y2]`. -/
structure ParsedTextPlacement where
  text : String
  fontID : Nat
  matrix : Matrix6
  localBbox : Box4
  globalBbox : Box4
  spaceWidth : ℚ
  globalSpaceWidth : ℚ × ℚ
deriving DecidableEq, Inhabited

/-- `TextPlacement` from `src/unnamed/part_001`: the external record with
`bbox` in `[x, y, width, height]` form. -/
structure TextPlacement where
  pageNumber : Nat
  fontID : Nat
  bbox : Box4
  text : String
deriving DecidableEq, Inhabited

/-- The per-placement conversion loop body of
`TextPlacementReader::extractFromFile` / `extractFromBuffer`
(`TextPlacementReader.cpp` lines 128-139): tag with the page number and
convert the box from `[x1, y1, x2, y2]` to `[x, y, width, height]`. -/
def convertPlacement (pageNum : Nat) (tp : ParsedTextPlacement) : TextPlacement :=
  { pageNumber := pageNum
    fontID := tp.fontID
    bbox := ⟨tp.globalBbox.b0,
             tp.globalBbox.b1,
             tp.globalBbox.b2 - tp.globalBbox.b0,
             tp.globalBbox.b3 - tp.globalBbox.b1⟩
    text := tp.text }

/-- The page loop of `extractFromFile` / `extractFromBuffer`
(`TextPlacementReader.cpp` lines 125-141): `pageNum` starts at 0 and is
incremented after each per-page list; every placement of a page is tagged
with that page's number, in insertion order. -/
def convertPagesGo (pageNum : Nat) : List (List ParsedTextPlacement) → List TextPlacement
  | [] => []
  | pageTexts :: rest =>
      pageTexts.map (convertPlacement pageNum) ++ convertPagesGo (pageNum + 1) rest

/-- The reader's placement list: the page loop started at page 0. -/
def readerPlacements (lists : List (List ParsedTextPlacement)) : List TextPlacement :=
  convertPagesGo 0 lists

/-- The `pageNum` counter after the loop of `extractFromFile`
(`TextPlacementReader.cpp` line 142: `impl_->pageCount = pageNum`). -/
def pageCountGo (pageNum : Nat) : List (List ParsedTextPlacement) → Nat
  | [] => pageNum
  | _ :: rest => pageCountGo (pageNum + 1) rest

/-- `TextPlacementReader::pageCount()`: the counter value after the loop. -/
def readerPageCount (lists : List (List ParsedTextPlacement)) : Nat :=
  pageCountGo 0 lists

/-- The filter applied by the page-range iterator: the condition of the
`break` in `Iterator::advanceToValidPage` (`TextPlacementReader.cpp`
line 247): `page >= startPage_ && (endPage_ < 0 || page < endPage_)`. -/
def inRange (startP endP : Int) (t : TextPlacement) : Bool :=
  decide (startP ≤ (t.pageNumber : Int) ∧ (endP < 0 ∨ (t.pageNumber : Int) < endP))

/-- The loop of `Iterator::advanceToValidPage` (`TextPlacementReader.cpp`
lines 242-257), with an explicit fuel counter standing in for the bounded
`while (index_ < size)` loop; the wrapper `advanceToValidPage` supplies
exactly the fuel the loop can consume. The `startP < 0` early return is
line 243's guard. -/
def advanceGo (pl : List TextPlacement) (startP endP : Int) : Nat → Nat → Nat
  | 0, i => i
  | fuel + 1, i =>
      if startP < 0 then i
      else if h : i < pl.length then
        let page : Int := ((pl.get ⟨i, h⟩).pageNumber : Int)
        if startP ≤ page ∧ (endP < 0 ∨ page < endP) then i
        else if 0 ≤ endP ∧ endP ≤ page then pl.length
        else advanceGo pl startP endP fuel (i + 1)
      else i

/-- `Iterator::advanceToValidPage`: run the scanning loop from index `i`.
The loop increments `index_` at most `pl.length - i` times before the
`index_ < size` condition fails. -/
def advanceToValidPage (pl : List TextPlacement) (startP endP : Int) (i : Nat) : Nat :=
  advanceGo pl startP endP (pl.length - i) i

/-- One dereference-then-increment round of the range-for loop over a
`PageRange` (`Iterator::operator++` at `TextPlacementReader.cpp` lines
267-273 followed by `advanceToValidPage`; the `startPage_ >= 0` test is
folded into `advanceGo`'s own guard). Again fuel-bounded: each round
strictly increases the index, so `pl.length` rounds suffice. -/
def collectGo (pl : List TextPlacement) (startP endP : Int) : Nat → Nat → List TextPlacement
  | 0, _ => []
  | fuel + 1, i =>
      if h : i < pl.length then
        pl.get ⟨i, h⟩ :: collectGo pl startP endP fuel (advanceToValidPage pl startP endP (i + 1))
      else []

/-- The sequence a range-for loop over `reader.pages(startP, endP)` yields:
begin is `Iterator(extractor, 0, startP, endP)` (whose constructor calls
`advanceToValidPage`), end is index `pl.length`
(`PageRange::begin` / `PageRange::end`, `TextPlacementReader.cpp`
lines 293-303). -/
def pagesRangeList (pl : List TextPlacement) (startP endP : Int) : List TextPlacement :=
  collectGo pl startP endP pl.length (advanceToValidPage pl startP endP 0)

-- ============================================================================
-- MemoryByteReader (TextPlacementReader.cpp lines 16-71)
-- ============================================================================

/-- The modulus of `size_t` arithmetic in `MemoryByteReader`
(`IOBasicTypes::LongBufferSizeType` is `size_t`; 64 bits on the LP64
target). Sums of `size_t` values wrap modulo this constant. -/
def sizeTMod : Nat := 2 ^ 64

/-- `MemoryByteReader` from `TextPlacementReader.cpp`: `data_` is the
buffer (its length playing `length_`, as set by the constructor), and
`position_` the cursor. -/
structure MemoryByteReader where
  data : List Nat
  position : Nat
deriving DecidableEq, Inhabited

namespace MemoryByteReader

/-- `MemoryByteReader::Read` (lines 24-35): returns the byte count the
`memcpy` copies and the function returns (the copied region is
`data_[position_ .. position_ + bytesToRead)`), together with the updated
reader. The additions `position_ + bytesToRead` (line 29) and
`position_ += bytesToRead` (line 33) are `size_t` additions and wrap
modulo `2^64`. -/
def Read (r : MemoryByteReader) (bufSize : Nat) : Nat × MemoryByteReader :=
  if r.position ≥ r.data.length then (0, r)
  else
    let bytesToRead :=
      if (r.position + bufSize) % sizeTMod > r.data.length then r.data.length - r.position
      else bufSize
    (bytesToRead, { r with position := (r.position + bytesToRead) % sizeTMod })

/-- `MemoryByteReader::NotEnded` (lines 37-39). -/
def NotEnded (r : MemoryByteReader) : Bool :=
  decide (r.position < r.data.length)

/-- `MemoryByteReader::SetPosition` (lines 42-46). The offset is the
signed `LongFilePositionType`; a negative offset casts to a `size_t`
above `length_`, so the guard `<= length_` fails and the position is left
unchanged. -/
def SetPosition (r : MemoryByteReader) (offsetFromStart : Int) : MemoryByteReader :=
  if 0 ≤ offsetFromStart ∧ offsetFromStart ≤ (r.data.length : Int) then
    { r with position := offsetFromStart.toNat }
  else r

/-- `MemoryByteReader::SetPositionFromEnd` (lines 48-52). -/
def SetPositionFromEnd (r : MemoryByteReader) (offsetFromEnd : Int) : MemoryByteReader :=
  if 0 ≤ offsetFromEnd ∧ offsetFromEnd ≤ (r.data.length : Int) then
    { r with position := r.data.length - offsetFromEnd.toNat }
  else r

/-- `MemoryByteReader::GetCurrentPosition` (lines 54-56). -/
def GetCurrentPosition (r : MemoryByteReader) : Nat :=
  r.position

/-- `MemoryByteReader::Skip` (lines 58-65). The sum
`newPos = position_ + inSkipSize` (line 59) is a `size_t` addition and
wraps modulo `2^64`. -/
def Skip (r : MemoryByteReader) (skipSize : Nat) : MemoryByteReader :=
  let newPos := (r.position + skipSize) % sizeTMod
  if newPos ≤ r.data.length then { r with position := newPos }
  else { r with position := r.data.length }

end MemoryByteReader

-- ============================================================================
-- JSON serialization (src/unnamed/part_001)
-- ============================================================================

/-- A JSON scalar value, just rich enough to state which source field each
serialized key carries. -/
inductive JsonValue where
  | jNat (n : Nat)
  | jInt (i : Int)
  | jRat (q : ℚ)
  | jStr (s : String)
deriving DecidableEq

/-- `FontInfo` as consumed by the ADL `to_json` in `src/unnamed/part_001`
(the field set of `FontDescription` in `FontDecoder.h`). -/
structure FontInfo where
  fontID : Nat
  ascent : ℚ
  descent : ℚ
  spaceWidth : ℚ
  familyName : String
  fontName : String
  fontStretch : String
  fontWeight : Int
  fontFlags : Int
deriving DecidableEq, Inhabited

/-- The ADL `to_json` for `FontInfo` (`src/unnamed/part_001` lines 16-28),
as the ordered field list of the JSON object initializer. -/
def FontInfo.to_json (f : FontInfo) : List (String × JsonValue) :=
  [("font_id", JsonValue.jNat f.fontID),
   ("font_name", JsonValue.jStr f.fontName),
   ("family_name", JsonValue.jStr f.familyName),
   ("font_stretch", JsonValue.jStr f.fontStretch),
   ("font_weight", JsonValue.jInt f.fontWeight),
   ("font_flags", JsonValue.jInt f.fontFlags),
   ("ascent", JsonValue.jRat f.ascent),
   ("descent", JsonValue.jRat f.descent),
   ("space_width", JsonValue.jRat f.spaceWidth)]

/-- `TextPlacement::to_json` (`src/unnamed/part_001` lines 44-54). -/
def TextPlacement.to_json (tp : TextPlacement) : List (String × JsonValue) :=
  [("page", JsonValue.jNat tp.pageNumber),
   ("font_id", JsonValue.jNat tp.fontID),
   ("x", JsonValue.jRat tp.bbox.b0),
   ("y", JsonValue.jRat tp.bbox.b1),
   ("width", JsonValue.jRat tp.bbox.b2),
   ("height", JsonValue.jRat tp.bbox.b3),
   ("text", JsonValue.jStr tp.text)]

-- ============================================================================
-- Font decoder (declared in src/TextExtraction/lib/font-translation/FontDecoder.h;
-- the implementation FontDecoder.cpp is not under src/, so the behavior is
-- modelled from spec §4.3)
-- ============================================================================

/-- The translation-method tag returned by `FontDecoder::Translate`
(`ETranslationMethod` in `Translation.h`, not under `src/`; the four
methods are spec §4.3's toUnicode / simpleEncoding / default / raw). -/
inductive ETranslationMethod where
  | toUnicode
  | simpleEncoding
  | defaultEncoding
  | rawEncoding
deriving DecidableEq, Inhabited

/-- `FontDecoderResult` from `FontDecoder.h`: the decoded UTF-8 text and
the method tag. -/
structure FontDecoderResult where
  asText : String
  translationMethod : ETranslationMethod
deriving DecidableEq, Inhabited

/-- `DispositionResult` from `FontDecoder.h`: one `(width, code)` pair of
`ComputeDisplacements`. -/
structure DispositionResult where
  width : ℚ
  code : Nat
deriving DecidableEq, Inhabited

/-- Modelled from the spec: the state a `FontDecoder` holds after
construction (`FontDecoder.cpp` is not under `src/`; the field list
follows the private section of `FontDecoder.h` and spec §4.3).
`toUnicodeMap` maps a code to a codepoint sequence; `codespaceRanges`
holds the CMap codespace ranges as `(lowBytes, highBytes)` pairs of equal
length; `fromSimpleEncodingMap` maps a byte to the UTF-8 string of its
glyph; `widths` is the sparse `code → width` table. -/
structure FontDecoder where
  isSimpleFont : Bool
  hasToUnicode : Bool
  toUnicodeMap : List (Nat × List Nat)
  codespaceRanges : List (List Nat × List Nat)
  hasSimpleEncoding : Bool
  fromSimpleEncodingMap : List (Nat × String)
  isMonospaced : Bool
  monospaceWidth : ℚ
  widths : List (Nat × ℚ)
  defaultWidth : Option ℚ
  ascent : ℚ
  descent : ℚ
  spaceWidth : ℚ
  fontID : Nat
deriving DecidableEq, Inhabited

namespace FontDecoder

/-- Big-endian multi-byte code value of a byte run. -/
def codeOfBytes (bs : List Nat) : Nat :=
  bs.foldl (fun acc b => acc * 256 + b) 0

/-- Does the head of `bytes` fall inside codespace range `r`? The range's
low/high byte strings must have equal positive length `ℓ ≤ |bytes|` and
bound the first `ℓ` bytes bytewise (spec §9, CMap parsing design note). -/
def matchRange (bytes : List Nat) (r : List Nat × List Nat) : Bool :=
  decide (0 < r.1.length ∧ r.1.length = r.2.length ∧ r.1.length ≤ bytes.length) &&
    ((bytes.take r.1.length).zip (r.1.zip r.2)).all
      (fun p => decide (p.2.1 ≤ p.1 ∧ p.1 ≤ p.2.2))

/-- Modelled from the spec: how many bytes the next CID code consumes and
its value. The first matching codespace range determines the length; with
no matching range the PDF-default 2 bytes are consumed (spec §4.3, code
iteration over bytes). -/
def nextCode (fd : FontDecoder) (bytes : List Nat) : Nat × Nat :=
  match fd.codespaceRanges.find? (matchRange bytes) with
  | some r => (codeOfBytes (bytes.take r.1.length), r.1.length)
  | none => (codeOfBytes (bytes.take 2), min 2 bytes.length)

/-- Modelled from the spec: split a byte string into CID codes, consuming
`nextCode` bytes per code. -/
def cidCodes (fd : FontDecoder) : List Nat → List Nat
  | [] => []
  | b :: rest =>
      let nc := nextCode fd (b :: rest)
      nc.1 :: cidCodes fd (rest.drop (nc.2 - 1))
termination_by bs => bs.length
decreasing_by
  simp only [List.length_drop, List.length_cons]
  omega

/-- Modelled from the spec: code iteration over a byte string. Simple
fonts consume exactly one byte per code; CID fonts consume variable-length
codes (spec §4.3). -/
def parseCodes (fd : FontDecoder) (bytes : List Nat) : List Nat :=
  if fd.isSimpleFont then bytes else cidCodes fd bytes

/-- A codepoint sequence rendered as a UTF-8 string. -/
def stringOfCodepoints (cps : List Nat) : String :=
  String.mk (cps.map Char.ofNat)

/-- Modelled from the spec: `FontDecoder::ToUnicodeEncoding` — each code
is looked up in the ToUnicode CMap; a code mapped to an empty sequence
contributes no text but still consumes its bytes (spec §8, boundary
behaviors). -/
def ToUnicodeEncoding (fd : FontDecoder) (bytes : List Nat) : String :=
  stringOfCodepoints ((parseCodes fd bytes).flatMap
    (fun code => ((fd.toUnicodeMap.lookup code).getD [])))

/-- Modelled from the spec: `FontDecoder::ToSimpleEncoding` — one byte per
code through the byte→glyph-name→Unicode table. -/
def ToSimpleEncoding (fd : FontDecoder) (bytes : List Nat) : String :=
  bytes.foldr (fun b acc => ((fd.fromSimpleEncodingMap.lookup b).getD "") ++ acc) ""

/-- Modelled from the spec: the static standard-encoding translation of a
byte (the Adobe StandardEncoding and glyph-list tables are external static
data, approximated here by the byte's own codepoint, on which no claim
depends). -/
def standardChar (b : Nat) : Char :=
  Char.ofNat b

/-- Modelled from the spec: `FontDecoder::ToDefaultEncoding` — simple
fonts decode bytes through the standard encoding; CID fonts without
ToUnicode emit U+FFFD per code consumed (spec §4.3). -/
def ToDefaultEncoding (fd : FontDecoder) (bytes : List Nat) : String :=
  if fd.isSimpleFont then String.mk (bytes.map standardChar)
  else String.mk ((parseCodes fd bytes).map (fun _ => Char.ofNat 0xFFFD))

/-- Modelled from the spec: `FontDecoder::Translate` — select the
strongest available method in order `toUnicode`, `simpleEncoding`,
`default` (spec §4.3; the `raw` fallback tag is reserved for unsupported
fonts). -/
def Translate (fd : FontDecoder) (bytes : List Nat) : FontDecoderResult :=
  if fd.hasToUnicode then
    ⟨ToUnicodeEncoding fd bytes, ETranslationMethod.toUnicode⟩
  else if fd.isSimpleFont && fd.hasSimpleEncoding then
    ⟨ToSimpleEncoding fd bytes, ETranslationMethod.simpleEncoding⟩
  else
    ⟨ToDefaultEncoding fd bytes, ETranslationMethod.defaultEncoding⟩

/-- Modelled from the spec: `FontDecoder::GetCodeWidth` — monospace
short-circuit, then the explicit per-code entry, then `defaultWidth`,
then 0 (spec §4.3, ComputeDisplacements). -/
def GetCodeWidth (fd : FontDecoder) (code : Nat) : ℚ :=
  if fd.isMonospaced then fd.monospaceWidth
  else
    match fd.widths.lookup code with
    | some w => w
    | none => fd.defaultWidth.getD 0

/-- Modelled from the spec: `FontDecoder::ComputeDisplacements` — iterate
codes and pair each with its looked-up width (spec §4.3). -/
def ComputeDisplacements (fd : FontDecoder) (bytes : List Nat) : List DispositionResult :=
  (parseCodes fd bytes).map (fun code => ⟨GetCodeWidth fd code, code⟩)

/-- Modelled from the spec: monospace detection at construction — if every
explicitly present width equals the same value and the default width
equals that value too, the font is monospaced with that width
(spec §4.3, monospace detection). -/
def detectMonospace (widths : List (Nat × ℚ)) (defaultW : Option ℚ) : Option ℚ :=
  match widths with
  | [] => none
  | (_, w) :: rest =>
      if (∀ p ∈ rest, p.2 = w) ∧ defaultW = some w then some w else none

/-- Install a width table on a decoder the way construction does: record
the sparse table and the default, and run monospace detection. -/
def withWidths (fd : FontDecoder) (widths : List (Nat × ℚ)) (defaultW : Option ℚ) :
    FontDecoder :=
  match detectMonospace widths defaultW with
  | some w =>
      { fd with widths := widths, defaultWidth := defaultW,
                isMonospaced := true, monospaceWidth := w }
  | none =>
      { fd with widths := widths, defaultWidth := defaultW,
                isMonospaced := false, monospaceWidth := 0 }

/-- Modelled from the spec: `FontDecoder::FindSpaceCharGlyphCode` — the
code whose Unicode decoding is U+0020, searched in the decoder's active
translation table (spec §4.3). -/
def FindSpaceCharGlyphCode (fd : FontDecoder) : Option Nat :=
  if fd.hasToUnicode then
    (fd.toUnicodeMap.find? (fun p => p.2 = [32])).map Prod.fst
  else if fd.isSimpleFont && fd.hasSimpleEncoding then
    (fd.fromSimpleEncodingMap.find? (fun p => p.2 = " ")).map Prod.fst
  else some 32

end FontDecoder

-- ============================================================================
-- Text placement collector (declared in
-- src/TextExtraction/lib/text-placements/TextPlacementsCollector.h; the
-- implementation TextPlacementsCollector.cpp and TPCollectionState are not
-- under src/, so the graphics-state machine is modelled from spec §4.2)
-- ============================================================================

/-- The graphics-state frame pushed by `q` and popped by `Q`
(spec §3): CTM, current font and size, and the text-state parameters. -/
structure GraphicsFrame where
  ctm : Matrix6
  fontRef : Option Nat
  fontSize : Option ℚ
  charSpace : ℚ
  wordSpace : ℚ
  leading : ℚ
  horizScale : ℚ
  textRise : ℚ
  textRenderingMode : Int
deriving DecidableEq, Inhabited

/-- The frame a fresh collector starts with: identity CTM, unset font,
zero spacings, `horizScale` defaulting to 1 and rendering mode to 0
(spec §3). -/
def initFrame : GraphicsFrame :=
  { ctm := idMatrix
    fontRef := none
    fontSize := none
    charSpace := 0
    wordSpace := 0
    leading := 0
    horizScale := 1
    textRise := 0
    textRenderingMode := 0 }

/-- The text-object sub-state existing only between `BT` and `ET`
(spec §3): text matrix and text line matrix. -/
structure TextObjectState where
  tm : Matrix6
  tlm : Matrix6
deriving DecidableEq, Inhabited

/-- The collector's mutable state (modelled `TPCollectionState`): the
graphics-state stack, the current frame, the optional text object, and
the accumulated per-page output list. -/
structure CState where
  gsStack : List GraphicsFrame
  current : GraphicsFrame
  textObj : Option TextObjectState
  output : List ParsedTextPlacement
deriving DecidableEq, Inhabited

/-- A fresh collector state (empty stack, empty output, outside any text
object). -/
def initCState : CState :=
  { gsStack := [], current := initFrame, textObj := none, output := [] }

/-- One element of a `TJ` operand array: a string to show or a position
adjustment number (spec §4.2). -/
inductive TJItem where
  | str (bytes : List Nat)
  | num (n : ℚ)
deriving DecidableEq, Inhabited

/-- The content-stream operators the collector recognizes (spec §4.2
operator table), with already-typed operands; `other` stands for any
forwarded operator the collector ignores. -/
inductive Op where
  | q
  | Qop
  | cm (m : Matrix6)
  | gs (name : String)
  | Tf (name : String) (size : ℚ)
  | Tc (x : ℚ)
  | Tw (x : ℚ)
  | TL (x : ℚ)
  | Tz (x : ℚ)
  | Ts (x : ℚ)
  | Tr (n : Int)
  | BT
  | ET
  | Td (tx ty : ℚ)
  | TD (tx ty : ℚ)
  | Tm (m : Matrix6)
  | TStar
  | Tj (bytes : List Nat)
  | TJ (items : List TJItem)
  | quote (bytes : List Nat)
  | dquote (aw ac : ℚ) (bytes : List Nat)
  | other (name : String)
deriving DecidableEq, Inhabited

/-- The environment an interpretation runs in: the resource lookups the
current scope provides (`Tf` names, ExtGState `/Font` entries) and the
document's font-decoder cache keyed by font ID. -/
structure Env where
  fonts : String → Option Nat
  extgs : String → Option (Nat × ℚ)
  fontOfID : Nat → FontDecoder

/-- Modelled from the spec: showing a string (spec §4.2, "Showing a
string s"). Requires the text object, font and size to be set, else the
operator is skipped. Computes the per-code advances, the text rendering
matrix `Trm`, emits one `ParsedTextPlacement`, then advances `tm` by the
total displacement. -/
def showStringOp (env : Env) (s : CState) (bytes : List Nat) : CState :=
  match s.textObj, s.current.fontRef, s.current.fontSize with
  | some tos, some fid, some size =>
      let fd := env.fontOfID fid
      let res := FontDecoder.Translate fd bytes
      let disps := FontDecoder.ComputeDisplacements fd bytes
      let spaceCode := FontDecoder.FindSpaceCharGlyphCode fd
      let txs := disps.map (fun d =>
        ((d.width / 1000) * size + s.current.charSpace +
          (if spaceCode = some d.code then s.current.wordSpace else 0)) * s.current.horizScale)
      let total := txs.sum
      let trm := matMul ⟨size * s.current.horizScale, 0, 0, size, 0, s.current.textRise⟩ tos.tm
      let m := matMul trm s.current.ctm
      let lb : Box4 := ⟨0, fd.descent * size / 1000, total, fd.ascent * size / 1000⟩
      let gb := globalBboxOfLocal lb m
      let sw := fd.spaceWidth * size / 1000 + s.current.charSpace + s.current.wordSpace
      let p : ParsedTextPlacement :=
        ⟨res.asText, fid, m, lb, gb, sw, (sw * m.a, sw * m.b)⟩
      { s with
          output := s.output ++ [p]
          textObj := some { tos with tm := matMul ⟨1, 0, 0, 1, total, 0⟩ tos.tm } }
  | _, _, _ => s

/-- Modelled from the spec: a number in a `TJ` array adjusts `tm` by
`-n/1000 × fontSize × horizScale` along text x (spec §4.2); like string
showing it requires the text object, font and size. -/
def tjAdjust (s : CState) (n : ℚ) : CState :=
  match s.textObj, s.current.fontRef, s.current.fontSize with
  | some tos, some _, some size =>
      { s with
          textObj := some
            { tos with
                tm := matMul ⟨1, 0, 0, 1, -n / 1000 * size * s.current.horizScale, 0⟩ tos.tm } }
  | _, _, _ => s

/-- Modelled from the spec: fold a `TJ` operand array left-to-right,
showing strings and applying number adjustments (spec §4.2). -/
def runTJ (env : Env) : List TJItem → CState → CState
  | [], s => s
  | TJItem.str bytes :: rest, s => runTJ env rest (showStringOp env s bytes)
  | TJItem.num n :: rest, s => runTJ env rest (tjAdjust s n)

/-- Modelled from the spec: `Td tx ty` — `tlm := [1 0 0 1 tx ty] × tlm`,
`tm := tlm`; ignored outside `BT…ET` (spec §4.2). -/
def tdOp (s : CState) (tx ty : ℚ) : CState :=
  match s.textObj with
  | some tos =>
      let tlm := matMul ⟨1, 0, 0, 1, tx, ty⟩ tos.tlm
      { s with textObj := some { tm := tlm, tlm := tlm } }
  | none => s

/-- Modelled from the spec: `TextPlacementsCollector::onOperation`
dispatch (`TextPlacementsCollector.cpp` is not under `src/`; the
semantics of each operator follow the spec §4.2 table; text-state
operators are ignored outside `BT…ET`, `Q` on an empty stack is ignored,
unknown operators are no-ops). -/
def exec (env : Env) (s : CState) : Op → CState
  | Op.q => { s with gsStack := s.current :: s.gsStack }
  | Op.Qop =>
      match s.gsStack with
      | [] => s
      | f :: rest => { s with current := f, gsStack := rest }
  | Op.cm m => { s with current := { s.current with ctm := matMul m s.current.ctm } }
  | Op.gs name =>
      match env.extgs name with
      | some (fid, size) =>
          { s with current := { s.current with fontRef := some fid, fontSize := some size } }
      | none => s
  | Op.Tf name size =>
      match env.fonts name with
      | some fid =>
          { s with current := { s.current with fontRef := some fid, fontSize := some size } }
      | none => s
  | Op.Tc x => { s with current := { s.current with charSpace := x } }
  | Op.Tw x => { s with current := { s.current with wordSpace := x } }
  | Op.TL x => { s with current := { s.current with leading := x } }
  | Op.Tz x => { s with current := { s.current with horizScale := x / 100 } }
  | Op.Ts x => { s with current := { s.current with textRise := x } }
  | Op.Tr n => { s with current := { s.current with textRenderingMode := n } }
  | Op.BT => { s with textObj := some { tm := idMatrix, tlm := idMatrix } }
  | Op.ET => { s with textObj := none }
  | Op.Td tx ty => tdOp s tx ty
  | Op.TD tx ty =>
      tdOp { s with current := { s.current with leading := -ty } } tx ty
  | Op.Tm m =>
      match s.textObj with
      | some _ => { s with textObj := some { tm := m, tlm := m } }
      | none => s
  | Op.TStar => tdOp s 0 (-s.current.leading)
  | Op.Tj bytes => showStringOp env s bytes
  | Op.TJ items => runTJ env items s
  | Op.quote bytes => showStringOp env (tdOp s 0 (-s.current.leading)) bytes
  | Op.dquote aw ac bytes =>
      showStringOp env
        (tdOp { s with current := { s.current with wordSpace := aw, charSpace := ac } }
          0 (-s.current.leading))
        bytes
  | Op.other _ => s

/-- Run a list of operators in content-stream order. -/
def execList (env : Env) (s : CState) : List Op → CState
  | [] => s
  | op :: rest => execList env (exec env s op) rest

/-- Run a content stream from a fresh collector state. -/
def runCollector (env : Env) (ops : List Op) : CState :=
  execList env initCState ops

/-- A sequence of operators whose `q`/`Q` pairs are balanced: the grammar
of Dyck words over `q`/`Q` with arbitrary other operators interleaved.
`wrap` is a matched pair enclosing a balanced body followed by a balanced
continuation; `skip` is any operator other than `q`/`Q`. -/
inductive BalancedOps : List Op → Prop where
  | nil : BalancedOps []
  | skip (op : Op) {rest : List Op} (h1 : op ≠ Op.q) (h2 : op ≠ Op.Qop)
      (h : BalancedOps rest) : BalancedOps (op :: rest)
  | wrap {inner rest : List Op} (hi : BalancedOps inner) (hr : BalancedOps rest) :
      BalancedOps (Op.q :: (inner ++ Op.Qop :: rest))

-- ============================================================================
-- Extraction driver and error handling (TextExtraction.cpp is not under
-- src/; its success/failure behavior is modelled from spec §7)
-- ============================================================================

/-- The error kinds of spec §7. -/
inductive ErrorKind where
  | ioError
  | malformedPDF
  | parseError
  | unsupportedFont
  | recursionLimit
deriving DecidableEq

/-- One page as the extraction engine sees it: the error kinds encountered
while processing it and the placement list recovered for it (possibly
truncated by a per-page abort). -/
structure PageInput where
  errors : List ErrorKind
  texts : List ParsedTextPlacement

/-- A document source as the extraction engine sees it: whether opening
the source itself fails with an I/O error, and the page sequence. -/
structure ExtractionInput where
  openFailed : Bool
  pages : List PageInput

/-- Did extraction hit a fatal I/O error (spec §7: `IOError` — source
unreadable; fatal)? -/
def ioErrorOccurred (inp : ExtractionInput) : Prop :=
  inp.openFailed = true ∨ ∃ p ∈ inp.pages, ErrorKind.ioError ∈ p.errors

instance (inp : ExtractionInput) : Decidable (ioErrorOccurred inp) := by
  unfold ioErrorOccurred
  infer_instance

/-- Modelled from the spec: `TextExtraction::ExtractText`
(`TextExtraction.cpp` is not under `src/`). Spec §7: the extractor always
produces a result set (possibly empty) except on `IOError`; `MalformedPDF`,
`ParseError`, `UnsupportedFont` and `RecursionLimit` are recovered from
per page/stream. Returns `none` exactly when the status is not
`eSuccess`. -/
def ExtractText (inp : ExtractionInput) : Option (List (List ParsedTextPlacement)) :=
  if ioErrorOccurred inp then none
  else some (inp.pages.map (fun p => p.texts))

/-- `TextPlacementReader::extractFromFile` / `extractFromBuffer`
(`TextPlacementReader.cpp` lines 109-143): a non-success status from
`ExtractText` raises `std::runtime_error`, otherwise the placements are
converted and the page count recorded. -/
def extractReader (inp : ExtractionInput) : Except String (List TextPlacement × Nat) :=
  match ExtractText inp with
  | none => Except.error "Failed to extract text from PDF"
  | some lists => Except.ok (readerPlacements lists, readerPageCount lists)

-- ============================================================================
-- Auxiliary predicates and concrete inputs used by the theorems below
-- ============================================================================

/-- A four-corner box `[x1, y1, x2, y2]` in normalized (min/max) form. -/
def NormBox (b : Box4) : Prop :=
  b.b0 ≤ b.b2 ∧ b.b1 ≤ b.b3

/-- The claim's monospace condition, checked computably: every explicitly
present width equals one value and the default width equals it too. -/
def monoCheck (widths : List (Nat × ℚ)) (defaultW : Option ℚ) : Bool :=
  match widths with
  | [] => false
  | p :: rest => rest.all (fun q => q.2 == p.2) && defaultW == some p.2

/-- The non-monospace part of the claimed width-resolution order: the
explicit per-code entry if present, otherwise `defaultWidth`, otherwise
0. -/
def lookupWidthFallback (widths : List (Nat × ℚ)) (defaultW : Option ℚ) (code : Nat) : ℚ :=
  match widths.lookup code with
  | some w => w
  | none => defaultW.getD 0

/-- A concrete simple-font decoder used by witnesses. -/
def fdSimpleEx : FontDecoder :=
  { isSimpleFont := true
    hasToUnicode := false
    toUnicodeMap := []
    codespaceRanges := []
    hasSimpleEncoding := false
    fromSimpleEncodingMap := []
    isMonospaced := false
    monospaceWidth := 0
    widths := [(65, 500)]
    defaultWidth := some 500
    ascent := 700
    descent := -200
    spaceWidth := 250
    fontID := 1 }

/-- A concrete interpretation environment: one font `F1` with ID 1. -/
def envEx : Env :=
  { fonts := fun n => if n = "F1" then some 1 else none
    extgs := fun _ => none
    fontOfID := fun _ => fdSimpleEx }

/-- A concrete minimal content stream showing one string. -/
def opsEx : List Op :=
  [Op.BT, Op.Tf "F1" 12, Op.Td 72 720, Op.Tj [65], Op.ET]

/-- A concrete balanced operator sequence between a `q` and its matching
`Q`. -/
def midEx : List Op :=
  [Op.cm ⟨2, 0, 0, 2, 0, 0⟩, Op.q, Op.Tc 5, Op.Qop]

/-- Two placements on pages 0 and 1, in nondecreasing page order. -/
def plExA : List TextPlacement :=
  [⟨0, 1, ⟨0, 0, 0, 0⟩, "a"⟩, ⟨1, 1, ⟨0, 0, 0, 0⟩, "b"⟩]

/-- A concrete memory reader over three bytes with the cursor at 1. -/
def mbrEx : MemoryByteReader :=
  ⟨[10, 20, 30], 1⟩

-- ============================================================================
-- Theorems: font decoder (claims C5, C6)
-- ============================================================================

theorem cidCodes_nil (fd : FontDecoder) : FontDecoder.cidCodes fd [] = [] := by
  simp [FontDecoder.cidCodes]

theorem parseCodes_nil (fd : FontDecoder) : FontDecoder.parseCodes fd [] = [] := by
  unfold FontDecoder.parseCodes
  split
  · rfl
  · exact cidCodes_nil fd

/-- C5: Font decoding is deterministic: the decoder's translation state is
fixed at construction, so `Translate` and `ComputeDisplacements` applied
twice to the same byte string on the same decoder give identical results
(identical UTF-8 text and method tag, identical `(width, code)` list). -/
theorem claim5_translate_deterministic (fd : FontDecoder) (b1 b2 : List Nat)
    (h : b1 = b2) :
    FontDecoder.Translate fd b1 = FontDecoder.Translate fd b2 ∧
    FontDecoder.ComputeDisplacements fd b1 = FontDecoder.ComputeDisplacements fd b2 := by
  subst h
  exact ⟨rfl, rfl⟩

theorem claim5_translate_deterministic_witness :
    FontDecoder.Translate fdSimpleEx [65, 66] = FontDecoder.Translate fdSimpleEx [65, 66] ∧
    FontDecoder.ComputeDisplacements fdSimpleEx [65, 66] =
      FontDecoder.ComputeDisplacements fdSimpleEx [65, 66] :=
  claim5_translate_deterministic fdSimpleEx [65, 66] [65, 66] rfl

/-- C6: for every font decoder, translating the empty byte string yields
the empty UTF-8 string, and computing displacements of the empty byte
string yields the empty list. -/
theorem claim6_empty_translation (fd : FontDecoder) :
    (FontDecoder.Translate fd []).asText = "" ∧
    FontDecoder.ComputeDisplacements fd [] = [] := by
  constructor
  · unfold FontDecoder.Translate
    split
    · simp [FontDecoder.ToUnicodeEncoding, parseCodes_nil, FontDecoder.stringOfCodepoints]
    · split
      · simp [FontDecoder.ToSimpleEncoding]
      · unfold FontDecoder.ToDefaultEncoding
        split
        · simp
        · simp [parseCodes_nil]
  · simp [FontDecoder.ComputeDisplacements, parseCodes_nil]

-- ============================================================================
-- Theorems: JSON serialization (claim C9)
-- ============================================================================

/-- C9: the JSON serialization of a `TextPlacement` has exactly the keys
`page, font_id, x, y, width, height, text`, carrying the page number, the
font ID, the four bbox entries in order, and the UTF-8 text; the JSON
serialization of a font description has exactly the keys `font_id,
font_name, family_name, font_stretch, font_weight, font_flags, ascent,
descent, space_width`. -/
theorem claim9_json_fields (tp : TextPlacement) (f : FontInfo) :
    (tp.to_json.map Prod.fst = ["page", "font_id", "x", "y", "width", "height", "text"] ∧
     tp.to_json.lookup "page" = some (JsonValue.jNat tp.pageNumber) ∧
     tp.to_json.lookup "font_id" = some (JsonValue.jNat tp.fontID) ∧
     tp.to_json.lookup "x" = some (JsonValue.jRat tp.bbox.b0) ∧
     tp.to_json.lookup "y" = some (JsonValue.jRat tp.bbox.b1) ∧
     tp.to_json.lookup "width" = some (JsonValue.jRat tp.bbox.b2) ∧
     tp.to_json.lookup "height" = some (JsonValue.jRat tp.bbox.b3) ∧
     tp.to_json.lookup "text" = some (JsonValue.jStr tp.text)) ∧
    (f.to_json.map Prod.fst =
       ["font_id", "font_name", "family_name", "font_stretch", "font_weight",
        "font_flags", "ascent", "descent", "space_width"] ∧
     f.to_json.lookup "font_id" = some (JsonValue.jNat f.fontID) ∧
     f.to_json.lookup "font_name" = some (JsonValue.jStr f.fontName) ∧
     f.to_json.lookup "family_name" = some (JsonValue.jStr f.familyName) ∧
     f.to_json.lookup "font_stretch" = some (JsonValue.jStr f.fontStretch) ∧
     f.to_json.lookup "font_weight" = some (JsonValue.jInt f.fontWeight) ∧
     f.to_json.lookup "font_flags" = some (JsonValue.jInt f.fontFlags) ∧
     f.to_json.lookup "ascent" = some (JsonValue.jRat f.ascent) ∧
     f.to_json.lookup "descent" = some (JsonValue.jRat f.descent) ∧
     f.to_json.lookup "space_width" = some (JsonValue.jRat f.spaceWidth)) := by
  refine ⟨⟨rfl, ?_, ?_, ?_, ?_, ?_, ?_, ?_⟩, ⟨rfl, ?_, ?_, ?_, ?_, ?_, ?_, ?_, ?_, ?_⟩⟩ <;> rfl

-- ============================================================================
-- Theorems: MemoryByteReader (claim C10)
-- ============================================================================

/-- C10 (amended): provided the `size_t` sums do not wrap
(`position + requested < 2^64` and `position + skipSize < 2^64`), the
buffer reader maintains `0 ≤ position ≤ length` across every operation:
`Read` copies and returns exactly `min(requested, length - position)`
bytes, the copied region `[position, position + count)` lies inside
`[0, length)`, and the position advances by that count; out-of-range
`SetPosition`/`SetPositionFromEnd` leave the position unchanged; `Skip`
clamps to `length`; `NotEnded` holds exactly when `position < length`.
At wrapping sizes the clamp is defeated (see the counterexample). -/
theorem claim10_memory_reader_invariant (r : MemoryByteReader)
    (bufSize skipSize : Nat) (off : Int) (hp : r.position ≤ r.data.length)
    (hbuf : r.position + bufSize < sizeTMod)
    (hskip : r.position + skipSize < sizeTMod) :
    (r.Read bufSize).1 = min bufSize (r.data.length - r.position) ∧
    r.position + (r.Read bufSize).1 ≤ r.data.length ∧
    (r.Read bufSize).2.position =
      r.position + min bufSize (r.data.length - r.position) ∧
    (r.Read bufSize).2.position ≤ r.data.length ∧
    (r.Read bufSize).2.data = r.data ∧
    (r.SetPosition off).position ≤ r.data.length ∧
    (¬(0 ≤ off ∧ off ≤ (r.data.length : Int)) → r.SetPosition off = r) ∧
    (r.SetPositionFromEnd off).position ≤ r.data.length ∧
    (¬(0 ≤ off ∧ off ≤ (r.data.length : Int)) → r.SetPositionFromEnd off = r) ∧
    (r.Skip skipSize).position = min (r.position + skipSize) r.data.length ∧
    (r.NotEnded = true ↔ r.position < r.data.length) := by
  have hm1 : (r.position + bufSize) % sizeTMod = r.position + bufSize :=
    Nat.mod_eq_of_lt hbuf
  have hm2 : (r.position + skipSize) % sizeTMod = r.position + skipSize :=
    Nat.mod_eq_of_lt hskip
  have hread : (if (r.position + bufSize) % sizeTMod > r.data.length
      then r.data.length - r.position else bufSize) =
      min bufSize (r.data.length - r.position) := by
    rw [hm1]
    split <;> omega
  have hmod2 : (r.position + min bufSize (r.data.length - r.position)) % sizeTMod =
      r.position + min bufSize (r.data.length - r.position) := by
    apply Nat.mod_eq_of_lt
    omega
  refine ⟨?_, ?_, ?_, ?_, ?_, ?_, ?_, ?_, ?_, ?_, ?_⟩
  · unfold MemoryByteReader.Read
    split
    · simp
      omega
    · simp only [hread]
  · unfold MemoryByteReader.Read
    split
    · simp
      omega
    · simp only [hread]
      omega
  · unfold MemoryByteReader.Read
    split
    · simp
      omega
    · simp only [hread, hmod2]
  · unfold MemoryByteReader.Read
    split
    · simpa using hp
    · simp only [hread, hmod2]
      omega
  · unfold MemoryByteReader.Read
    split
    · rfl
    · rfl
  · unfold MemoryByteReader.SetPosition
    split
    · rename_i h
      dsimp only
      omega
    · exact hp
  · intro h
    unfold MemoryByteReader.SetPosition
    split
    · rename_i h2
      exact absurd h2 h
    · rfl
  · unfold MemoryByteReader.SetPositionFromEnd
    split
    · dsimp only
      omega
    · exact hp
  · intro h
    unfold MemoryByteReader.SetPositionFromEnd
    split
    · rename_i h2
      exact absurd h2 h
    · rfl
  · unfold MemoryByteReader.Skip
    dsimp only
    rw [hm2]
    split <;> (dsimp only; omega)
  · unfold MemoryByteReader.NotEnded
    simp

theorem claim10_memory_reader_invariant_witness :
    (mbrEx.Skip 1).position = min (mbrEx.position + 1) mbrEx.data.length :=
  (claim10_memory_reader_invariant mbrEx 5 1 (-1) (by decide) (by decide)
    (by decide)).2.2.2.2.2.2.2.2.2.1

/-- C10 counterexample: with a 64-bit `size_t`, requesting `2^64 - 1`
bytes from position 1 of a 3-byte buffer wraps `position_ + bytesToRead`
(line 29) to 0, defeating the clamp: `Read` reports `2^64 - 1` bytes
copied — a `memcpy` far beyond `[0, length)` — instead of
`min(requested, length - position) = 2`; and `Skip` of `2^64 - 1` wraps
`newPos` (line 59) to 0, setting the position to 0 instead of clamping to
the length. -/
theorem claim10_memory_reader_invariant_cex :
    (MemoryByteReader.Read mbrEx (sizeTMod - 1)).1 ≠
      min (sizeTMod - 1) (mbrEx.data.length - mbrEx.position) ∧
    ¬ (mbrEx.position + (MemoryByteReader.Read mbrEx (sizeTMod - 1)).1 ≤
        mbrEx.data.length) ∧
    (MemoryByteReader.Skip mbrEx (sizeTMod - 1)).position ≠
      min (mbrEx.position + (sizeTMod - 1)) mbrEx.data.length := by
  decide

-- ============================================================================
-- Theorems: error handling (claim C3)
-- ============================================================================

/-- C3: constructing a reader either completes with a (possibly empty)
result set or throws; it throws exactly when extraction encounters an
`IOError`, while all other error kinds are recovered from and still yield
a result set. -/
theorem claim3_ioerror_fatal (inp : ExtractionInput) :
    ((∃ res, extractReader inp = Except.ok res) ↔ ¬ ioErrorOccurred inp) ∧
    ((∃ msg, extractReader inp = Except.error msg) ↔ ioErrorOccurred inp) := by
  by_cases h : ioErrorOccurred inp
  · simp [extractReader, ExtractText, h]
  · simp [extractReader, ExtractText, h]

-- ============================================================================
-- Theorems: width resolution (claim C7)
-- ============================================================================

theorem getCodeWidth_withWidths (base : FontDecoder) (widths : List (Nat × ℚ))
    (defaultW : Option ℚ) (code : Nat) :
    FontDecoder.GetCodeWidth (base.withWidths widths defaultW) code =
      if monoCheck widths defaultW then
        match widths with
        | [] => 0
        | p :: _ => p.2
      else lookupWidthFallback widths defaultW code := by
  unfold FontDecoder.withWidths FontDecoder.detectMonospace monoCheck
  match widths with
  | [] =>
    simp [FontDecoder.GetCodeWidth, lookupWidthFallback]
  | (c, w) :: rest =>
    dsimp only
    by_cases hcond : (∀ p ∈ rest, p.2 = w) ∧ defaultW = some w
    · rw [if_pos hcond]
      have hbool : ((rest.all fun q => q.2 == w) && (defaultW == some w)) = true := by
        rw [Bool.and_eq_true, List.all_eq_true]
        constructor
        · intro p hm
          exact beq_iff_eq.mpr (hcond.1 p hm)
        · exact beq_iff_eq.mpr hcond.2
      simp [FontDecoder.GetCodeWidth, hbool]
    · rw [if_neg hcond]
      have hbool : ((rest.all fun q => q.2 == w) && (defaultW == some w)) = false := by
        rw [Bool.and_eq_false_iff]
        by_cases h1 : ∀ p ∈ rest, p.2 = w
        · right
          have h2 : ¬ defaultW = some w := fun hh => hcond ⟨h1, hh⟩
          exact beq_eq_false_iff_ne.mpr h2
        · left
          rw [← Bool.not_eq_true, List.all_eq_true]
          intro hall
          exact h1 (fun p hm => beq_iff_eq.mp (hall p hm))
      simp [FontDecoder.GetCodeWidth, hbool, lookupWidthFallback]

/-- C7: every width appearing in a `ComputeDisplacements` result is
resolved in the claimed order: when every explicitly present width equals
one value and the default width equals it too (the monospace condition),
that common width is returned; otherwise the explicit per-code entry if
present, otherwise the default width, otherwise 0. -/
theorem claim7_width_resolution (base : FontDecoder) (widths : List (Nat × ℚ))
    (defaultW : Option ℚ) (bytes : List Nat) (d : DispositionResult)
    (hmem : d ∈ FontDecoder.ComputeDisplacements (base.withWidths widths defaultW) bytes) :
    (monoCheck widths defaultW = true →
       ∃ h : widths ≠ [], d.width = (widths.head h).2) ∧
    (monoCheck widths defaultW = false →
       d.width = lookupWidthFallback widths defaultW d.code) := by
  unfold FontDecoder.ComputeDisplacements at hmem
  rw [List.mem_map] at hmem
  obtain ⟨code, _, rfl⟩ := hmem
  constructor
  · intro hmono
    match hw : widths with
    | [] => simp [monoCheck] at hmono
    | p :: rest =>
      refine ⟨by simp, ?_⟩
      dsimp only
      rw [getCodeWidth_withWidths, hmono]
      simp
  · intro hmono
    dsimp only
    rw [getCodeWidth_withWidths, hmono]
    simp

theorem claim7_width_resolution_witness :
    (((FontDecoder.ComputeDisplacements (fdSimpleEx.withWidths [(65, 500)] (some 600))
        [65]).getD 0 default).width =
      lookupWidthFallback [(65, 500)] (some 600)
        (((FontDecoder.ComputeDisplacements (fdSimpleEx.withWidths [(65, 500)] (some 600))
          [65]).getD 0 default).code)) :=
  (claim7_width_resolution fdSimpleEx [(65, 500)] (some 600) [65] _ (by decide)).2 (by decide)

-- ============================================================================
-- Theorems: page tagging and page count (claim C4)
-- ============================================================================

theorem convertPagesGo_eq_enumFrom (n : Nat) (lists : List (List ParsedTextPlacement)) :
    convertPagesGo n lists =
      ((lists.enumFrom n).map (fun p => p.2.map (convertPlacement p.1))).flatten := by
  induction lists generalizing n with
  | nil => rfl
  | cons hd tl ih =>
    simp [convertPagesGo, List.enumFrom, ih (n + 1)]

theorem convertPagesGo_pages_ge (n : Nat) (lists : List (List ParsedTextPlacement)) :
    ∀ tp ∈ convertPagesGo n lists, n ≤ tp.pageNumber := by
  induction lists generalizing n with
  | nil => simp [convertPagesGo]
  | cons hd tl ih =>
    intro tp hm
    unfold convertPagesGo at hm
    rw [List.mem_append] at hm
    rcases hm with hm | hm
    · rw [List.mem_map] at hm
      obtain ⟨p, _, rfl⟩ := hm
      exact le_refl n
    · exact Nat.le_of_succ_le (ih (n + 1) tp hm)

theorem convertPagesGo_sorted (n : Nat) (lists : List (List ParsedTextPlacement)) :
    (convertPagesGo n lists).Pairwise (fun a b => a.pageNumber ≤ b.pageNumber) := by
  induction lists generalizing n with
  | nil => exact List.Pairwise.nil
  | cons hd tl ih =>
    unfold convertPagesGo
    rw [List.pairwise_append]
    refine ⟨?_, ih (n + 1), ?_⟩
    · rw [List.pairwise_map]
      exact List.pairwise_of_forall (fun _ _ => le_refl n)
    · intro a ha b hb
      rw [List.mem_map] at ha
      obtain ⟨p, _, rfl⟩ := ha
      exact Nat.le_of_succ_le (convertPagesGo_pages_ge (n + 1) tl b hb)

theorem pageCountGo_eq (n : Nat) (lists : List (List ParsedTextPlacement)) :
    pageCountGo n lists = n + lists.length := by
  induction lists generalizing n with
  | nil => simp [pageCountGo]
  | cons hd tl ih =>
    simp [pageCountGo, ih (n + 1)]
    omega

/-- C4: every converted placement's `pageNumber` is the 0-based index of
the per-page list it came from (the placement list is the in-order
concatenation of the per-page lists mapped through `convertPlacement` at
their index); page numbers are nondecreasing along the sequence; and
`pageCount()` is the number of per-page lists processed. -/
theorem claim4_page_tagging (lists : List (List ParsedTextPlacement)) :
    readerPlacements lists =
      ((lists.enum.map (fun p => p.2.map (convertPlacement p.1))).flatten) ∧
    (readerPlacements lists).Pairwise (fun a b => a.pageNumber ≤ b.pageNumber) ∧
    readerPageCount lists = lists.length := by
  refine ⟨?_, convertPagesGo_sorted 0 lists, ?_⟩
  · rw [readerPlacements, convertPagesGo_eq_enumFrom, List.enum]
  · rw [readerPageCount, pageCountGo_eq]
    omega

-- ============================================================================
-- Theorems: bbox conversion and nonnegativity (claim C2)
-- ============================================================================

theorem normBox_globalBboxOfLocal (lb : Box4) (m : Matrix6) :
    NormBox (globalBboxOfLocal lb m) := by
  unfold NormBox globalBboxOfLocal
  constructor
  · exact le_trans (le_trans (min_le_left _ _) (min_le_left _ _))
      (le_trans (le_max_left _ _) (le_max_left _ _))
  · exact le_trans (le_trans (min_le_left _ _) (min_le_left _ _))
      (le_trans (le_max_left _ _) (le_max_left _ _))

theorem showStringOp_output (env : Env) (s : CState) (bytes : List Nat) :
    ∀ tp ∈ (showStringOp env s bytes).output, tp ∈ s.output ∨ NormBox tp.globalBbox := by
  unfold showStringOp
  split
  · intro tp hm
    rw [List.mem_append] at hm
    rcases hm with hm | hm
    · exact Or.inl hm
    · rw [List.mem_singleton] at hm
      subst hm
      exact Or.inr (normBox_globalBboxOfLocal _ _)
  · exact fun tp hm => Or.inl hm

theorem tjAdjust_output (s : CState) (n : ℚ) : (tjAdjust s n).output = s.output := by
  unfold tjAdjust
  split <;> rfl

theorem tdOp_output (s : CState) (tx ty : ℚ) : (tdOp s tx ty).output = s.output := by
  unfold tdOp
  split <;> rfl

theorem runTJ_output (env : Env) :
    ∀ (items : List TJItem) (s : CState),
      ∀ tp ∈ (runTJ env items s).output, tp ∈ s.output ∨ NormBox tp.globalBbox := by
  intro items
  induction items with
  | nil => exact fun s tp hm => Or.inl hm
  | cons hd tl ih =>
    intro s tp hm
    match hd with
    | TJItem.str bytes =>
      rcases ih (showStringOp env s bytes) tp hm with h | h
      · exact showStringOp_output env s bytes tp h
      · exact Or.inr h
    | TJItem.num n =>
      rcases ih (tjAdjust s n) tp hm with h | h
      · rw [tjAdjust_output] at h
        exact Or.inl h
      · exact Or.inr h

theorem exec_output (env : Env) (s : CState) (op : Op) :
    ∀ tp ∈ (exec env s op).output, tp ∈ s.output ∨ NormBox tp.globalBbox := by
  cases op with
  | q => exact fun tp hm => Or.inl hm
  | Qop =>
    intro tp hm
    simp only [exec] at hm
    split at hm <;> exact Or.inl hm
  | cm m => exact fun tp hm => Or.inl hm
  | gs name =>
    intro tp hm
    simp only [exec] at hm
    split at hm <;> exact Or.inl hm
  | Tf name size =>
    intro tp hm
    simp only [exec] at hm
    split at hm <;> exact Or.inl hm
  | Tc x => exact fun tp hm => Or.inl hm
  | Tw x => exact fun tp hm => Or.inl hm
  | TL x => exact fun tp hm => Or.inl hm
  | Tz x => exact fun tp hm => Or.inl hm
  | Ts x => exact fun tp hm => Or.inl hm
  | Tr n => exact fun tp hm => Or.inl hm
  | BT => exact fun tp hm => Or.inl hm
  | ET => exact fun tp hm => Or.inl hm
  | Td tx ty =>
    intro tp hm
    simp only [exec, tdOp_output] at hm
    exact Or.inl hm
  | TD tx ty =>
    intro tp hm
    simp only [exec, tdOp_output] at hm
    exact Or.inl hm
  | Tm m =>
    intro tp hm
    simp only [exec] at hm
    split at hm <;> exact Or.inl hm
  | TStar =>
    intro tp hm
    simp only [exec, tdOp_output] at hm
    exact Or.inl hm
  | Tj bytes => exact showStringOp_output env s bytes
  | TJ items => exact runTJ_output env items s
  | quote bytes =>
    intro tp hm
    simp only [exec] at hm
    rcases showStringOp_output env _ bytes tp hm with h | h
    · rw [tdOp_output] at h
      exact Or.inl h
    · exact Or.inr h
  | dquote aw ac bytes =>
    intro tp hm
    simp only [exec] at hm
    rcases showStringOp_output env _ bytes tp hm with h | h
    · rw [tdOp_output] at h
      exact Or.inl h
    · exact Or.inr h
  | other name => exact fun tp hm => Or.inl hm

theorem execList_output (env : Env) :
    ∀ (ops : List Op) (s : CState),
      ∀ tp ∈ (execList env s ops).output, tp ∈ s.output ∨ NormBox tp.globalBbox := by
  intro ops
  induction ops with
  | nil => exact fun s tp hm => Or.inl hm
  | cons op rest ih =>
    intro s tp hm
    rcases ih (exec env s op) tp hm with h | h
    · exact exec_output env s op tp h
    · exact Or.inr h

/-- C2: every placement emitted by a collector run carries a normalized
four-corner `globalBbox = [x1, y1, x2, y2]`, so the reader's conversion
produces `bbox = [x1, y1, x2 - x1, y2 - y1]` with nonnegative width
`bbox[2]` and height `bbox[3]`. -/
theorem claim2_bbox_conversion (env : Env) (ops : List Op) (tp : ParsedTextPlacement)
    (pageNum : Nat) (hmem : tp ∈ (runCollector env ops).output) :
    (convertPlacement pageNum tp).bbox =
      ⟨tp.globalBbox.b0, tp.globalBbox.b1,
       tp.globalBbox.b2 - tp.globalBbox.b0, tp.globalBbox.b3 - tp.globalBbox.b1⟩ ∧
    0 ≤ (convertPlacement pageNum tp).bbox.b2 ∧
    0 ≤ (convertPlacement pageNum tp).bbox.b3 := by
  have hnorm : NormBox tp.globalBbox := by
    rcases execList_output env ops initCState tp hmem with h | h
    · simp [initCState] at h
    · exact h
  refine ⟨rfl, ?_, ?_⟩
  · exact sub_nonneg.mpr hnorm.1
  · exact sub_nonneg.mpr hnorm.2

theorem claim2_bbox_conversion_witness :
    0 ≤ (convertPlacement 0 (((runCollector envEx opsEx).output).getD 0 default)).bbox.b2 := by
  have hlen : 0 < (runCollector envEx opsEx).output.length := by
    simp [runCollector, execList, exec, opsEx, envEx, initCState, showStringOp, tdOp]
  have hmem : ((runCollector envEx opsEx).output).getD 0 default ∈
      (runCollector envEx opsEx).output := by
    rw [List.getD_eq_getElem?_getD, List.getElem?_eq_getElem hlen, Option.getD_some]
    exact List.getElem_mem hlen
  exact (claim2_bbox_conversion envEx opsEx (((runCollector envEx opsEx).output).getD 0 default)
    0 hmem).2.1

-- ============================================================================
-- Theorems: q/Q frame restoration (claim C8)
-- ============================================================================

theorem showStringOp_gsStack (env : Env) (s : CState) (bytes : List Nat) :
    (showStringOp env s bytes).gsStack = s.gsStack := by
  unfold showStringOp
  split <;> rfl

theorem tjAdjust_gsStack (s : CState) (n : ℚ) : (tjAdjust s n).gsStack = s.gsStack := by
  unfold tjAdjust
  split <;> rfl

theorem tdOp_gsStack (s : CState) (tx ty : ℚ) : (tdOp s tx ty).gsStack = s.gsStack := by
  unfold tdOp
  split <;> rfl

theorem runTJ_gsStack (env : Env) :
    ∀ (items : List TJItem) (s : CState), (runTJ env items s).gsStack = s.gsStack := by
  intro items
  induction items with
  | nil => exact fun s => rfl
  | cons hd tl ih =>
    intro s
    match hd with
    | TJItem.str bytes => rw [runTJ, ih, showStringOp_gsStack]
    | TJItem.num n => rw [runTJ, ih, tjAdjust_gsStack]

theorem exec_gsStack_of_ne (env : Env) (s : CState) (op : Op)
    (h1 : op ≠ Op.q) (h2 : op ≠ Op.Qop) : (exec env s op).gsStack = s.gsStack := by
  cases op with
  | q => exact absurd rfl h1
  | Qop => exact absurd rfl h2
  | cm m => rfl
  | gs name =>
    simp only [exec]
    split <;> rfl
  | Tf name size =>
    simp only [exec]
    split <;> rfl
  | Tc x => rfl
  | Tw x => rfl
  | TL x => rfl
  | Tz x => rfl
  | Ts x => rfl
  | Tr n => rfl
  | BT => rfl
  | ET => rfl
  | Td tx ty => exact tdOp_gsStack s tx ty
  | TD tx ty => exact tdOp_gsStack _ tx ty
  | Tm m =>
    simp only [exec]
    split <;> rfl
  | TStar => exact tdOp_gsStack s 0 _
  | Tj bytes => exact showStringOp_gsStack env s bytes
  | TJ items => exact runTJ_gsStack env items s
  | quote bytes =>
    simp only [exec]
    rw [showStringOp_gsStack, tdOp_gsStack]
  | dquote aw ac bytes =>
    simp only [exec]
    rw [showStringOp_gsStack, tdOp_gsStack]
  | other name => rfl

theorem execList_append (env : Env) (l1 l2 : List Op) :
    ∀ s : CState, execList env s (l1 ++ l2) = execList env (execList env s l1) l2 := by
  induction l1 with
  | nil => exact fun s => rfl
  | cons op rest ih =>
    intro s
    rw [List.cons_append, execList, execList, ih]

theorem balanced_gsStack (env : Env) {ops : List Op} (h : BalancedOps ops) :
    ∀ s : CState, (execList env s ops).gsStack = s.gsStack := by
  induction h with
  | nil => exact fun s => rfl
  | skip op h1 h2 hrest ih =>
    intro s
    rw [execList, ih, exec_gsStack_of_ne env s op h1 h2]
  | @wrap inner rest hi hr ih1 ih2 =>
    intro s
    rw [execList, execList_append, execList]
    rw [ih2]
    have hinner : (execList env (exec env s Op.q) inner).gsStack = s.current :: s.gsStack := by
      rw [ih1]
      rfl
    set t := execList env (exec env s Op.q) inner with htdef
    simp only [exec]
    split
    · rename_i heq
      rw [heq] at hinner
      exact absurd hinner.symm (List.cons_ne_nil _ _)
    · rename_i f r2 heq
      rw [heq] at hinner
      injection hinner

/-- C8: after a matched `q`/`Q` pair — any balanced operator sequence in
between — the current graphics-state frame (ctm, font, fontSize,
charSpace, wordSpace, leading, horizScale, textRise, textRenderingMode)
equals the frame in effect immediately before the `q`. -/
theorem claim8_qQ_restores (env : Env) (s : CState) (mid : List Op)
    (h : BalancedOps mid) :
    (execList env s (Op.q :: (mid ++ [Op.Qop]))).current = s.current := by
  rw [execList, execList_append, execList, execList]
  have hstack : (execList env (exec env s Op.q) mid).gsStack = s.current :: s.gsStack := by
    rw [balanced_gsStack env h]
    rfl
  set t := execList env (exec env s Op.q) mid with htdef
  simp only [exec]
  split
  · rename_i heq
    rw [heq] at hstack
    exact absurd hstack.symm (List.cons_ne_nil _ _)
  · rename_i f rest heq
    rw [heq] at hstack
    injection hstack

theorem claim8_qQ_restores_witness :
    (execList envEx initCState (Op.q :: (midEx ++ [Op.Qop]))).current = initCState.current :=
  claim8_qQ_restores envEx initCState midEx
    (BalancedOps.skip _ (by decide) (by decide)
      (BalancedOps.wrap (BalancedOps.skip _ (by decide) (by decide) BalancedOps.nil)
        BalancedOps.nil))

-- ============================================================================
-- Theorems: page-range iteration (claim C1)
-- ============================================================================

theorem advance_of_ge (pl : List TextPlacement) (startP endP : Int) (i : Nat)
    (h : pl.length ≤ i) : advanceToValidPage pl startP endP i = i := by
  unfold advanceToValidPage
  have h0 : pl.length - i = 0 := by omega
  rw [h0]
  rfl

theorem advance_neg (pl : List TextPlacement) (startP endP : Int) (hs : startP < 0)
    (i : Nat) : advanceToValidPage pl startP endP i = i := by
  unfold advanceToValidPage
  cases h : pl.length - i with
  | zero => rfl
  | succ f =>
    simp only [advanceGo]
    rw [if_pos hs]

theorem advance_step (pl : List TextPlacement) (startP endP : Int) (i : Nat)
    (hi : i < pl.length) (hs : 0 ≤ startP) :
    advanceToValidPage pl startP endP i =
      if startP ≤ ((pl.get ⟨i, hi⟩).pageNumber : Int) ∧
         (endP < 0 ∨ ((pl.get ⟨i, hi⟩).pageNumber : Int) < endP) then i
      else if 0 ≤ endP ∧ endP ≤ ((pl.get ⟨i, hi⟩).pageNumber : Int) then pl.length
      else advanceToValidPage pl startP endP (i + 1) := by
  unfold advanceToValidPage
  have hfi : pl.length - i = (pl.length - (i + 1)) + 1 := by omega
  rw [hfi]
  simp only [advanceGo]
  rw [if_neg (not_lt.mpr hs), dif_pos hi]

theorem collectGo_of_ge (pl : List TextPlacement) (startP endP : Int) (i : Nat)
    (h : pl.length ≤ i) (fuel : Nat) : collectGo pl startP endP fuel i = [] := by
  cases fuel with
  | zero => rfl
  | succ f =>
    simp only [collectGo]
    rw [dif_neg (not_lt.mpr h)]

theorem sorted_le_of_mem_drop (pl : List TextPlacement)
    (hsort : pl.Pairwise (fun a b => a.pageNumber ≤ b.pageNumber))
    (i : Nat) (hi : i < pl.length) :
    ∀ a ∈ pl.drop i, (pl.get ⟨i, hi⟩).pageNumber ≤ a.pageNumber := by
  have hd : pl.drop i = pl.get ⟨i, hi⟩ :: pl.drop (i + 1) := by
    rw [List.get_eq_getElem]
    exact List.drop_eq_getElem_cons hi
  have hPdrop : (pl.drop i).Pairwise (fun a b => a.pageNumber ≤ b.pageNumber) :=
    List.Pairwise.sublist (List.drop_sublist i pl) hsort
  rw [hd] at hPdrop
  rw [List.pairwise_cons] at hPdrop
  intro a ha
  rw [hd, List.mem_cons] at ha
  rcases ha with rfl | ha
  · exact le_refl _
  · exact hPdrop.1 a ha

theorem collect_advance_spec (pl : List TextPlacement) (startP endP : Int)
    (hs : 0 ≤ startP)
    (hsort : pl.Pairwise (fun a b => a.pageNumber ≤ b.pageNumber)) :
    ∀ (k i fuel : Nat), pl.length - i ≤ k → pl.length - i ≤ fuel →
      collectGo pl startP endP fuel (advanceToValidPage pl startP endP i) =
        (pl.drop i).filter (inRange startP endP) := by
  intro k
  induction k with
  | zero =>
    intro i fuel hk hfuel
    have hge : pl.length ≤ i := by omega
    rw [advance_of_ge pl startP endP i hge, collectGo_of_ge pl startP endP i hge fuel,
        List.drop_eq_nil_of_le hge]
    rfl
  | succ k ih =>
    intro i fuel hk hfuel
    by_cases hi : i < pl.length
    · rw [advance_step pl startP endP i hi hs]
      by_cases hc : startP ≤ ((pl.get ⟨i, hi⟩).pageNumber : Int) ∧
          (endP < 0 ∨ ((pl.get ⟨i, hi⟩).pageNumber : Int) < endP)
      · rw [if_pos hc]
        obtain ⟨f, rfl⟩ : ∃ f, fuel = f + 1 := ⟨fuel - 1, by omega⟩
        simp only [collectGo]
        rw [dif_pos hi, ih (i + 1) f (by omega) (by omega),
            List.drop_eq_getElem_cons hi, List.filter_cons]
        have ht : inRange startP endP pl[i] = true := by
          unfold inRange
          rw [List.get_eq_getElem] at hc
          exact decide_eq_true hc
        rw [ht]
        rw [List.get_eq_getElem]
        simp
      · rw [if_neg hc]
        by_cases hb : 0 ≤ endP ∧ endP ≤ ((pl.get ⟨i, hi⟩).pageNumber : Int)
        · rw [if_pos hb, collectGo_of_ge pl startP endP pl.length (le_refl _) fuel]
          symm
          rw [List.filter_eq_nil_iff]
          intro a ha
          have hle := sorted_le_of_mem_drop pl hsort i hi a ha
          unfold inRange
          simp only [decide_eq_true_eq]
          intro hr
          rcases hr.2 with h2 | h2
          · omega
          · have : ((pl.get ⟨i, hi⟩).pageNumber : Int) ≤ (a.pageNumber : Int) := by
              exact_mod_cast hle
            omega
        · rw [if_neg hb, ih (i + 1) fuel (by omega) (by omega),
              List.drop_eq_getElem_cons hi, List.filter_cons]
          have ht : inRange startP endP pl[i] = false := by
            unfold inRange
            rw [List.get_eq_getElem] at hc
            exact decide_eq_false hc
          rw [ht]
          simp
    · have hge : pl.length ≤ i := by omega
      rw [advance_of_ge pl startP endP i hge, collectGo_of_ge pl startP endP i hge fuel,
          List.drop_eq_nil_of_le hge]
      rfl

theorem collect_neg (pl : List TextPlacement) (startP endP : Int) (hs : startP < 0) :
    ∀ (fuel i : Nat), pl.length - i ≤ fuel →
      collectGo pl startP endP fuel i = pl.drop i := by
  intro fuel
  induction fuel with
  | zero =>
    intro i hf
    rw [collectGo, List.drop_eq_nil_of_le (by omega)]
  | succ f ih =>
    intro i hf
    by_cases hi : i < pl.length
    · simp only [collectGo]
      rw [dif_pos hi, advance_neg pl startP endP hs (i + 1), ih (i + 1) (by omega),
          List.drop_eq_getElem_cons hi, List.get_eq_getElem]
    · simp only [collectGo]
      rw [dif_neg hi, List.drop_eq_nil_of_le (by omega)]

/-- C1 (amended): for a document whose placements are in nondecreasing
page order — as every constructed reader's are — and `startPage ≥ 0`,
iterating `pages(startPage, endPage)` yields exactly the placements with
`pageNumber ∈ [startPage, endPage)` in their original order, `endPage < 0`
extending the range to the end of the document; when `startPage < 0` the
iterator filters nothing and yields every placement. -/
theorem claim1_pages_filter (pl : List TextPlacement) (startP endP : Int)
    (hsort : pl.Pairwise (fun a b => a.pageNumber ≤ b.pageNumber)) :
    (0 ≤ startP →
       pagesRangeList pl startP endP = pl.filter (inRange startP endP)) ∧
    (startP < 0 → pagesRangeList pl startP endP = pl) := by
  constructor
  · intro hs
    unfold pagesRangeList
    rw [collect_advance_spec pl startP endP hs hsort pl.length 0 pl.length
      (by omega) (by omega), List.drop_zero]
  · intro hs
    unfold pagesRangeList
    rw [advance_neg pl startP endP hs 0, collect_neg pl startP endP hs pl.length 0 (by omega),
        List.drop_zero]

theorem claim1_pages_filter_witness :
    pagesRangeList plExA 0 1 = plExA.filter (inRange 0 1) :=
  (claim1_pages_filter plExA 0 1 (by decide)).1 (by decide)

/-- C1 counterexample: with `startPage = -1` the claim as stated fails —
the iterator performs no filtering at all (`advanceToValidPage` returns
immediately when `startPage_ < 0`), so a placement on page 1 is yielded
although `1 ∉ [-1, 1)`. -/
theorem claim1_pages_filter_cex :
    pagesRangeList plExA (-1) 1 ≠ plExA.filter (inRange (-1) 1) := by
  decide

end PdfTextExtraction
